import Mathlib

/-!
Verification of the session-scoped history cache and its frontend client
(repository: hack-interview web app).

The frontend sources (frontend/src/api.ts, frontend/src/types.ts,
frontend/src/components/HistoryPanel.tsx, the App component) are embedded
directly.  The FastAPI backend that implements the History Cache is not part
of the source tree here (only its callers and the README describe it), so the
cache itself is modelled from the specification (spec §3, §4.1, §6).
-/

namespace HackInterview

/-- The `entry_type` tag of a history entry: the TypeScript union
`"interview" | "vision"` from frontend/src/types.ts (`HistoryEntry`). -/
inductive EntryType where
  | interview
  | vision
deriving DecidableEq, Repr

/-- The variant payload of an `AnswerRecord` (spec §3): all variant fields of
the TypeScript `HistoryEntry` shape except the cache-assigned `id`,
`created_at` and the expiry bookkeeping.  Every variant field is optional, as
in frontend/src/types.ts. -/
structure RecordBody where
  entry_type : EntryType
  transcript : Option String
  quick_answer : Option String
  full_answer : Option String
  answer : Option String
  selected_option : Option String
  prompt : Option String
  options : Option (List String)
  position : Option String
  model : Option String
deriving DecidableEq, Repr

/-- Modelled from the spec: a stored `AnswerRecord` (spec §3).  The backend
cache implementation is absent from the source tree.  `id` is the unique
identifier generated at write time (spec: "e.g., random token"; modelled as a
counter-assigned natural number, which realises uniqueness), `created_at` the
write timestamp, and `expiry = created_at + ttl` (spec §4.1).  Timestamps are
naturals (seconds). -/
structure StoredRecord where
  id : Nat
  created_at : Nat
  expiry : Nat
  body : RecordBody
deriving DecidableEq, Repr

/-- Modelled from the spec: the single retention-duration configuration
(spec §6), read once at startup. -/
structure CacheConfig where
  ttl : Nat
deriving DecidableEq, Repr

/-- Default retention window: 24 hours, in seconds (spec §4.1, §6; also the
HistoryPanel caption "Stored securely in Redis for 24 hours"). -/
def defaultTtl : Nat := 24 * 60 * 60

/-- Modelled from the spec: the default cache configuration. -/
def CacheConfig.default : CacheConfig := { ttl := defaultTtl }

/-- Modelled from the spec: the History Cache state (spec §2, §4.1) — a map
from session identifier to the session's ordered record list (newest first,
the spec's recommended convention), plus the id counter backing unique id
generation. -/
structure HistoryCache where
  sessions : String → List StoredRecord
  nextId : Nat

/-- Modelled from the spec: the cache at process start — no session has any
entries. -/
def emptyCache : HistoryCache := { sessions := fun _ => [], nextId := 0 }

/-- Modelled from the spec: `put(session_id, record)` (spec §4.1).  Assigns
`id` and `created_at` at call time, sets the record's expiry to
`created_at + ttl`, and prepends the record to the session's list
(newest first).  A session with no prior entries is implicitly created. -/
def HistoryCache.put (c : HistoryCache) (cfg : CacheConfig) (s : String)
    (r : RecordBody) (now : Nat) : HistoryCache :=
  { sessions := fun k =>
      if k = s then
        { id := c.nextId, created_at := now, expiry := now + cfg.ttl, body := r }
          :: c.sessions k
      else c.sessions k
    nextId := c.nextId + 1 }

/-- Modelled from the spec: lazy expiry — drop every record whose expiry has
elapsed (spec §4.1: a record is present strictly before `created_at + ttl`
and absent strictly after). -/
def purge (now : Nat) (l : List StoredRecord) : List StoredRecord :=
  l.filter fun rec => decide (now < rec.expiry)

/-- Modelled from the spec: `list(session_id)` (spec §4.1).  Purges expired
records from the session's list (a state mutation, lazy expiry on read) and
returns the remaining records, newest first. -/
def HistoryCache.list (c : HistoryCache) (s : String) (now : Nat) :
    HistoryCache × List StoredRecord :=
  let remaining := purge now (c.sessions s)
  ({ c with sessions := fun k => if k = s then remaining else c.sessions k },
   remaining)

/-- The record `put` inserts for a given pre-call cache state. -/
def insertedRecord (c : HistoryCache) (cfg : CacheConfig) (r : RecordBody)
    (now : Nat) : StoredRecord :=
  { id := c.nextId, created_at := now, expiry := now + cfg.ttl, body := r }

theorem put_sessions_self (c : HistoryCache) (cfg : CacheConfig) (s : String)
    (r : RecordBody) (now : Nat) :
    (c.put cfg s r now).sessions s = insertedRecord c cfg r now :: c.sessions s := by
  simp [HistoryCache.put, insertedRecord]

theorem put_sessions_other (c : HistoryCache) (cfg : CacheConfig) (s k : String)
    (r : RecordBody) (now : Nat) (hk : k ≠ s) :
    (c.put cfg s r now).sessions k = c.sessions k := by
  simp [HistoryCache.put, hk]

theorem list_snd (c : HistoryCache) (s : String) (now : Nat) :
    (c.list s now).2 = purge now (c.sessions s) := rfl

theorem purge_cons_fresh (now : Nat) (rec : StoredRecord) (l : List StoredRecord)
    (h : now < rec.expiry) :
    purge now (rec :: l) = rec :: purge now l := by
  simp [purge, h]

theorem mem_purge {now : Nat} {rec : StoredRecord} {l : List StoredRecord} :
    rec ∈ purge now l ↔ rec ∈ l ∧ now < rec.expiry := by
  simp [purge]

/-- A sample interview-variant record payload (spec §8's example scenario). -/
def sampleInterviewBody : RecordBody :=
  { entry_type := EntryType.interview, transcript := some "hello",
    quick_answer := some "Hi", full_answer := some "Hi there",
    answer := none, selected_option := none, prompt := none, options := none,
    position := some "Python Developer", model := some "gpt-4o-mini" }

/-- C1: for every non-empty session id `s` and record payload `r` with a
populated entry_type and its variant fields, `put(s, r)` immediately followed
by `list(s)` yields a sequence containing a record equal to `r` in all
populated fields, up to the cache-assigned `id` and `created_at`. -/
theorem C1_put_then_list_roundtrip (cfg : CacheConfig) (c : HistoryCache)
    (s : String) (r : RecordBody) (now : Nat) (hs : s ≠ "") (ht : 0 < cfg.ttl) :
    ∃ rec ∈ ((c.put cfg s r now).list s now).2,
      rec.body = r ∧ rec.created_at = now := by
  refine ⟨insertedRecord c cfg r now, ?_, rfl, rfl⟩
  rw [list_snd, put_sessions_self, purge_cons_fresh]
  · exact List.mem_cons_self _ _
  · show now < now + cfg.ttl
    omega

/-- Witness for C1 at the spec §8 example: session `"abc"`, the sample
interview record, the default 24-hour configuration. -/
theorem C1_put_then_list_roundtrip_witness :
    ("abc" : String) ≠ "" ∧ 0 < CacheConfig.default.ttl ∧
      ∃ rec ∈ ((emptyCache.put CacheConfig.default "abc" sampleInterviewBody 100).list
          "abc" 100).2,
        rec.body = sampleInterviewBody ∧ rec.created_at = 100 :=
  ⟨by decide, by decide,
    C1_put_then_list_roundtrip CacheConfig.default emptyCache "abc"
      sampleInterviewBody 100 (by decide) (by decide)⟩

/-- Modelled from the spec: one atomic cache operation.  Spec §5 requires a
mutual-exclusion discipline around every mutation of a session's list
(including the purge a read performs), so a concurrent execution is an
interleaving of atomic `put` and `list` steps. -/
inductive CacheOp where
  | putOp (s : String) (r : RecordBody) (t : Nat)
  | listOp (s : String) (t : Nat)
deriving DecidableEq, Repr

/-- The timestamp at which an operation executes. -/
def CacheOp.time : CacheOp → Nat
  | CacheOp.putOp _ _ t => t
  | CacheOp.listOp _ t => t

/-- Execute one atomic cache operation (the listing's returned sequence is
dropped; only the state effect matters here). -/
def execOp (cfg : CacheConfig) (c : HistoryCache) : CacheOp → HistoryCache
  | CacheOp.putOp s r t => c.put cfg s r t
  | CacheOp.listOp s t => (c.list s t).1

/-- Execute a sequence (interleaving) of atomic cache operations. -/
def execOps (cfg : CacheConfig) (c : HistoryCache) : List CacheOp → HistoryCache
  | [] => c
  | op :: ops => execOps cfg (execOp cfg c op) ops

/-- C3: the expiry of every record is set at write time to
`created_at + ttl`, the ttl defaults to 24 hours, and for a record inserted
at time `T` the session's listing includes it at every query time strictly
before `T + ttl` and excludes it at every query time strictly after. -/
theorem C3_expiry_window (cfg : CacheConfig) (c : HistoryCache) (s : String)
    (r : RecordBody) (T q : Nat) :
    (insertedRecord c cfg r T).expiry = T + cfg.ttl ∧
    CacheConfig.default.ttl = 24 * 60 * 60 ∧
    (q < T + cfg.ttl → insertedRecord c cfg r T ∈ ((c.put cfg s r T).list s q).2) ∧
    (T + cfg.ttl < q → insertedRecord c cfg r T ∉ ((c.put cfg s r T).list s q).2) := by
  refine ⟨rfl, rfl, ?_, ?_⟩
  · intro hq
    rw [list_snd, put_sessions_self, mem_purge]
    exact ⟨List.mem_cons_self _ _, hq⟩
  · intro hq hmem
    rw [list_snd, mem_purge] at hmem
    have : q < T + cfg.ttl := hmem.2
    omega

/-- Witness for C3: with the default 24-hour ttl, a record written at time 0
is listed at query time 0 (strictly before expiry) and not listed at query
time 100000 (strictly after the 86400-second expiry). -/
theorem C3_expiry_window_witness :
    ((0 : Nat) < 0 + CacheConfig.default.ttl ∧
      insertedRecord emptyCache CacheConfig.default sampleInterviewBody 0 ∈
        ((emptyCache.put CacheConfig.default "abc" sampleInterviewBody 0).list "abc" 0).2) ∧
    (0 + CacheConfig.default.ttl < 100000 ∧
      insertedRecord emptyCache CacheConfig.default sampleInterviewBody 0 ∉
        ((emptyCache.put CacheConfig.default "abc" sampleInterviewBody 0).list "abc" 100000).2) :=
  ⟨⟨by decide,
    (C3_expiry_window CacheConfig.default emptyCache "abc" sampleInterviewBody 0 0).2.2.1
      (by decide)⟩,
   ⟨by decide,
    (C3_expiry_window CacheConfig.default emptyCache "abc" sampleInterviewBody 0 100000).2.2.2
      (by decide)⟩⟩

theorem list_fst_sessions (c : HistoryCache) (s k : String) (now : Nat) :
    ((c.list s now).1).sessions k =
      if k = s then purge now (c.sessions s) else c.sessions k := rfl

/-- C4: `put(s1, r)` changes no state outside session s1's list — every other
session's stored list and listing are untouched — and stored records are
never mutated: after any atomic operation, every visible record either was
already stored, unchanged, or is the record the operation itself inserted
(removal happens only through the purge, which is a sublist). -/
theorem C4_isolation_and_immutability (cfg : CacheConfig) (c : HistoryCache)
    (s1 s2 : String) (r : RecordBody) (now q : Nat) (hne : s1 ≠ s2) :
    ((c.put cfg s1 r now).list s2 q).2 = (c.list s2 q).2 ∧
    (∀ k, k ≠ s1 → (c.put cfg s1 r now).sessions k = c.sessions k) ∧
    (∀ op k rec, rec ∈ (execOp cfg c op).sessions k →
      rec ∈ c.sessions k ∨
        ∃ s3 r3 t3, op = CacheOp.putOp s3 r3 t3 ∧ k = s3 ∧
          rec = insertedRecord c cfg r3 t3) ∧
    (∀ k t, (((c.list s1 t).1).sessions k).Sublist (c.sessions k)) := by
  refine ⟨?_, ?_, ?_, ?_⟩
  · rw [list_snd, list_snd, put_sessions_other c cfg s1 s2 r now (Ne.symm hne)]
  · intro k hk
    exact put_sessions_other c cfg s1 k r now hk
  · intro op k rec hmem
    cases op with
    | putOp s3 r3 t3 =>
        by_cases hk : k = s3
        · rw [execOp, hk, put_sessions_self] at hmem
          rcases List.mem_cons.mp hmem with h | h
          · exact Or.inr ⟨s3, r3, t3, rfl, hk, h⟩
          · apply Or.inl
            rw [hk]
            exact h
        · rw [execOp, put_sessions_other c cfg s3 k r3 t3 hk] at hmem
          exact Or.inl hmem
    | listOp s3 t3 =>
        rw [execOp, list_fst_sessions] at hmem
        by_cases hk : k = s3
        · rw [if_pos hk] at hmem
          apply Or.inl
          rw [hk]
          exact (mem_purge.mp hmem).1
        · rw [if_neg hk] at hmem
          exact Or.inl hmem
  · intro k t
    rw [list_fst_sessions]
    by_cases hk : k = s1
    · subst hk
      simp only [if_pos rfl]
      exact List.filter_sublist _
    · rw [if_neg hk]

/-- Witness for C4: with sessions `"a"` and `"b"`, a write to `"a"` leaves
the listing of `"b"` unchanged. -/
theorem C4_isolation_and_immutability_witness :
    ("a" : String) ≠ "b" ∧
      ((emptyCache.put CacheConfig.default "a" sampleInterviewBody 5).list "b" 5).2 =
        (emptyCache.list "b" 5).2 :=
  ⟨by decide,
    (C4_isolation_and_immutability CacheConfig.default emptyCache "a" "b"
      sampleInterviewBody 5 5 (by decide)).1⟩

/-- Modelled from the spec: a run of `put` calls on one session, each paired
with its insertion time. -/
def putSeq (cfg : CacheConfig) (c : HistoryCache) (s : String) :
    List (RecordBody × Nat) → HistoryCache
  | [] => c
  | (r, t) :: rest => putSeq cfg (c.put cfg s r t) s rest

theorem putSeq_map_created_at (cfg : CacheConfig) (c : HistoryCache)
    (s : String) (prs : List (RecordBody × Nat)) :
    ((putSeq cfg c s prs).sessions s).map StoredRecord.created_at
      = (prs.map Prod.snd).reverse
          ++ (c.sessions s).map StoredRecord.created_at := by
  induction prs generalizing c with
  | nil => simp [putSeq]
  | cons p rest ih =>
      obtain ⟨r, t⟩ := p
      rw [putSeq, ih, put_sessions_self]
      simp [insertedRecord]

theorem putSeq_mem (cfg : CacheConfig) (c : HistoryCache) (s : String)
    (prs : List (RecordBody × Nat)) (rec : StoredRecord)
    (hmem : rec ∈ (putSeq cfg c s prs).sessions s) :
    rec ∈ c.sessions s ∨ ∃ p ∈ prs, rec.expiry = p.2 + cfg.ttl := by
  induction prs generalizing c with
  | nil => exact Or.inl hmem
  | cons p rest ih =>
      obtain ⟨r, t⟩ := p
      rw [putSeq] at hmem
      rcases ih (c.put cfg s r t) hmem with h | ⟨p2, hp2, he⟩
      · rw [put_sessions_self] at h
        rcases List.mem_cons.mp h with h | h
        · exact Or.inr ⟨(r, t), List.mem_cons_self _ _, by rw [h]; rfl⟩
        · exact Or.inl h
      · exact Or.inr ⟨p2, List.mem_cons_of_mem _ hp2, he⟩

/-- C2: for a session whose records were inserted at strictly increasing
times t1 < t2 < … < tn, all still unexpired at the query time, `list`
returns them most recent first: tn, …, t1. -/
theorem C2_list_reverse_chronological (cfg : CacheConfig) (c : HistoryCache)
    (s : String) (prs : List (RecordBody × Nat)) (q : Nat)
    (hempty : c.sessions s = [])
    (hchain : (prs.map Prod.snd).Chain' (· < ·))
    (hlive : ∀ p ∈ prs, q < p.2 + cfg.ttl) :
    (((putSeq cfg c s prs).list s q).2).map StoredRecord.created_at
      = (prs.map Prod.snd).reverse := by
  have hall : ∀ rec ∈ (putSeq cfg c s prs).sessions s, q < rec.expiry := by
    intro rec hrec
    rcases putSeq_mem cfg c s prs rec hrec with h | ⟨p, hp, he⟩
    · rw [hempty] at h
      cases h
    · rw [he]
      exact hlive p hp
  rw [list_snd]
  have hfilter : purge q ((putSeq cfg c s prs).sessions s)
      = (putSeq cfg c s prs).sessions s := by
    rw [purge]
    refine List.filter_eq_self.mpr ?_
    intro a ha
    exact decide_eq_true (hall a ha)
  rw [hfilter, putSeq_map_created_at, hempty]
  simp

/-- Witness for C2: two records inserted at times 10 < 20, queried at time
30 with the default ttl, are listed as 20 then 10. -/
theorem C2_list_reverse_chronological_witness :
    (emptyCache.sessions "abc" = []) ∧
      (((putSeq CacheConfig.default emptyCache "abc"
            [(sampleInterviewBody, 10), (sampleInterviewBody, 20)]).list "abc" 30).2).map
          StoredRecord.created_at
        = (([(sampleInterviewBody, 10),
             (sampleInterviewBody, 20)].map Prod.snd).reverse : List Nat) :=
  ⟨rfl,
    C2_list_reverse_chronological CacheConfig.default emptyCache "abc"
      [(sampleInterviewBody, 10), (sampleInterviewBody, 20)] 30 rfl
      (by simp [List.chain'_cons]) (by decide)⟩

/-- Modelled from the spec: the constant fallback partition key used when the
X-Session-Id header is missing (spec §6, §7; the backend implementation is
absent from the source tree, so the concrete constant is unspecified). -/
def defaultSessionKey : String := "default"

/-- An HTTP response at the history boundary: a status code and a JSON array
of serialized records. -/
structure HttpResponse where
  status : Nat
  body : List StoredRecord
deriving DecidableEq, Repr

/-- Modelled from the spec: the `GET /api/history` handler (spec §4.2, §6):
extract the session id from the `X-Session-Id` header, falling back to the
constant default partition when absent, call `list`, and respond `200` with
the resulting array — never an error status. -/
def historyEndpoint (cfg : CacheConfig) (c : HistoryCache)
    (sessionHeader : Option String) (now : Nat) : HistoryCache × HttpResponse :=
  let sid := sessionHeader.getD defaultSessionKey
  let res := c.list sid now
  (res.1, { status := 200, body := res.2 })

/-- The client-side `fetchHistory` (frontend/src/api.ts): when the response
is not ok (status outside 200–299) it throws a `History API error`;
otherwise it resolves to the parsed JSON array. -/
def fetchHistoryResult (resp : HttpResponse) : Except String (List StoredRecord) :=
  if 200 ≤ resp.status ∧ resp.status < 300 then Except.ok resp.body
  else
    Except.error
      ("History API error (" ++ toString resp.status ++ "): Unable to load saved answers")

/-- C5: `list` on a never-written or fully-expired session returns an empty
sequence and never an error; `GET /api/history` always responds `200` with a
(possibly empty) array, so the client's `fetchHistory` resolves to an array
rather than rejecting. -/
theorem C5_empty_history_is_ok (cfg : CacheConfig) (c : HistoryCache)
    (hdr : Option String) (now : Nat) :
    ((historyEndpoint cfg c hdr now).2.status = 200) ∧
    (fetchHistoryResult (historyEndpoint cfg c hdr now).2
      = Except.ok (historyEndpoint cfg c hdr now).2.body) ∧
    (c.sessions (hdr.getD defaultSessionKey) = [] →
      (historyEndpoint cfg c hdr now).2.body = []) ∧
    ((∀ rec ∈ c.sessions (hdr.getD defaultSessionKey), rec.expiry ≤ now) →
      (historyEndpoint cfg c hdr now).2.body = []) := by
  refine ⟨rfl, ?_, ?_, ?_⟩
  · rw [fetchHistoryResult, if_pos]
    show 200 ≤ 200 ∧ 200 < 300
    omega
  · intro hempty
    show purge now (c.sessions (hdr.getD defaultSessionKey)) = []
    rw [hempty]
    rfl
  · intro hexp
    show purge now (c.sessions (hdr.getD defaultSessionKey)) = []
    rw [purge]
    refine List.filter_eq_nil_iff.mpr ?_
    intro a ha
    simp only [decide_eq_true_eq]
    exact Nat.not_lt.mpr (hexp a ha)

/-- Witness for C5: a missing header on the empty cache yields status 200,
a resolving fetch, and an empty array. -/
theorem C5_empty_history_is_ok_witness :
    (emptyCache.sessions (Option.getD none defaultSessionKey) = []) ∧
      ((historyEndpoint CacheConfig.default emptyCache none 0).2.body = []) :=
  ⟨rfl,
    (C5_empty_history_is_ok CacheConfig.default emptyCache none 0).2.2.1 rfl⟩

/-- Modelled from the spec: the payload the answer-generation handlers hand
to the cache on success (spec §3 variants, §6 write path): an interview
result carries transcript, quick_answer and full_answer (position and model
optional); a vision result carries the answer (selected_option, prompt and
options optional). -/
inductive HandlerResult where
  | interviewResult (transcript quick_answer full_answer : String)
      (position model : Option String)
  | visionResult (answer : String) (selected_option prompt : Option String)
      (options : Option (List String))
deriving DecidableEq, Repr

/-- The record payload written for a handler result: exactly the fields of
the matching variant are populated, the other variant's fields are none. -/
def HandlerResult.toBody : HandlerResult → RecordBody
  | HandlerResult.interviewResult t qa fa pos mdl =>
      { entry_type := EntryType.interview, transcript := some t,
        quick_answer := some qa, full_answer := some fa, answer := none,
        selected_option := none, prompt := none, options := none,
        position := pos, model := mdl }
  | HandlerResult.visionResult ans sel pr opts =>
      { entry_type := EntryType.vision, transcript := none,
        quick_answer := none, full_answer := none, answer := some ans,
        selected_option := sel, prompt := pr, options := opts,
        position := none, model := none }

/-- The variant-field invariant of spec §3: exactly the fields matching
`entry_type` are populated, the other variant's fields are null. -/
def wfBody (b : RecordBody) : Bool :=
  match b.entry_type with
  | EntryType.interview =>
      b.transcript.isSome && b.quick_answer.isSome && b.full_answer.isSome
        && (b.answer == none) && (b.selected_option == none)
        && (b.prompt == none) && (b.options == none)
  | EntryType.vision =>
      b.answer.isSome && (b.transcript == none) && (b.quick_answer == none)
        && (b.full_answer == none) && (b.position == none) && (b.model == none)

theorem wfBody_toBody (h : HandlerResult) : wfBody h.toBody = true := by
  cases h <;> simp [HandlerResult.toBody, wfBody]

/-- Modelled from the spec: the cache states reachable from process start
through the write path — records are created only by the interview/vision
handlers (spec §3 lifecycle, §6) — and through listing. -/
inductive Reachable (cfg : CacheConfig) : HistoryCache → Prop where
  | empty : Reachable cfg emptyCache
  | putStep {c : HistoryCache} (s : String) (hr : HandlerResult) (t : Nat) :
      Reachable cfg c → Reachable cfg (c.put cfg s hr.toBody t)
  | listStep {c : HistoryCache} (s : String) (t : Nat) :
      Reachable cfg c → Reachable cfg ((c.list s t).1)

theorem reachable_wf (cfg : CacheConfig) (c : HistoryCache)
    (hreach : Reachable cfg c) :
    ∀ k : String, ∀ rec ∈ c.sessions k, wfBody rec.body = true := by
  induction hreach with
  | empty =>
      intro k rec hmem
      cases hmem
  | putStep s hr t _ ih =>
      intro k rec hmem
      by_cases hk : k = s
      · rw [hk, put_sessions_self] at hmem
        rcases List.mem_cons.mp hmem with h | h
        · rw [h]
          exact wfBody_toBody hr
        · exact ih s rec h
      · rw [put_sessions_other _ _ _ _ _ _ hk] at hmem
        exact ih k rec hmem
  | listStep s t _ ih =>
      intro k rec hmem
      rw [list_fst_sessions] at hmem
      by_cases hk : k = s
      · rw [if_pos hk] at hmem
        exact ih s rec (mem_purge.mp hmem).1
      · rw [if_neg hk] at hmem
        exact ih k rec hmem

/-- C8: every record returned by `list` on a reachable cache has entry_type
`interview` or `vision`, and exactly the variant fields matching its
entry_type are populated — the other variant's fields are null. -/
theorem C8_variant_field_invariant (cfg : CacheConfig) (c : HistoryCache)
    (hreach : Reachable cfg c) (s : String) (q : Nat) :
    ∀ rec ∈ (c.list s q).2,
      (rec.body.entry_type = EntryType.interview
        ∨ rec.body.entry_type = EntryType.vision) ∧ wfBody rec.body = true := by
  intro rec hmem
  rw [list_snd] at hmem
  refine ⟨?_, reachable_wf cfg c hreach s rec (mem_purge.mp hmem).1⟩
  cases h : rec.body.entry_type
  · exact Or.inl rfl
  · exact Or.inr rfl

/-- Witness for C8: the cache holding one interview record written by the
interview handler lists a record satisfying the variant invariant. -/
theorem C8_variant_field_invariant_witness :
    (insertedRecord emptyCache CacheConfig.default
        (HandlerResult.interviewResult "hello" "Hi" "Hi there" none none).toBody
        5).body.entry_type = EntryType.interview
      ∨ (insertedRecord emptyCache CacheConfig.default
          (HandlerResult.interviewResult "hello" "Hi" "Hi there" none none).toBody
          5).body.entry_type = EntryType.vision :=
  (C8_variant_field_invariant CacheConfig.default
    (emptyCache.put CacheConfig.default "abc"
      (HandlerResult.interviewResult "hello" "Hi" "Hi there" none none).toBody 5)
    (Reachable.putStep "abc"
      (HandlerResult.interviewResult "hello" "Hi" "Hi there" none none) 5
      Reachable.empty)
    "abc" 5
    (insertedRecord emptyCache CacheConfig.default
      (HandlerResult.interviewResult "hello" "Hi" "Hi there" none none).toBody 5)
    (by decide)).1

/-- Does this operation write to session `s`? -/
def isPutTo (s : String) : CacheOp → Bool
  | CacheOp.putOp s2 _ _ => decide (s2 = s)
  | CacheOp.listOp _ _ => false

/-- Modelled from the spec: an operation compatible with a final query at
time `q` — it executes no later than `q`, and a write to the observed
session is still unexpired at `q` (spec §8 property 6 exercises the cache
within the retention window). -/
def opFresh (cfg : CacheConfig) (s : String) (q : Nat) : CacheOp → Bool
  | CacheOp.putOp s2 _ t =>
      decide (t ≤ q) && (!(decide (s2 = s)) || decide (q < t + cfg.ttl))
  | CacheOp.listOp _ t => decide (t ≤ q)

/-- The per-session invariant maintained across an interleaving: every
stored record of session `s` is unexpired at the final query time and has an
id below the cache's counter, and the ids along the list strictly
decrease. -/
def SessInv (s : String) (q : Nat) (c : HistoryCache) : Prop :=
  (∀ rec ∈ c.sessions s, q < rec.expiry ∧ rec.id < c.nextId) ∧
  ((c.sessions s).map StoredRecord.id).Chain' (· > ·)

theorem sessInv_step (cfg : CacheConfig) (s : String) (q : Nat)
    (c : HistoryCache) (op : CacheOp)
    (hinv : SessInv s q c) (hop : opFresh cfg s q op = true) :
    SessInv s q (execOp cfg c op) ∧
    ((execOp cfg c op).sessions s).length
      = (c.sessions s).length + (if isPutTo s op then 1 else 0) := by
  obtain ⟨hbound, hchain⟩ := hinv
  cases op with
  | putOp s2 r t =>
      by_cases hs2 : s2 = s
      · simp only [opFresh, hs2, decide_True, Bool.not_true, Bool.false_or,
          Bool.and_eq_true, decide_eq_true_eq] at hop
        have hsess : (execOp cfg c (CacheOp.putOp s2 r t)).sessions s
            = insertedRecord c cfg r t :: c.sessions s := by
          rw [execOp, hs2, put_sessions_self]
        have hnext : (execOp cfg c (CacheOp.putOp s2 r t)).nextId = c.nextId + 1 := rfl
        refine ⟨⟨?_, ?_⟩, ?_⟩
        · intro rec hrec
          rw [hsess] at hrec
          rw [hnext]
          rcases List.mem_cons.mp hrec with h | h
          · rw [h]
            exact ⟨hop.2, Nat.lt_succ_self _⟩
          · obtain ⟨h1, h2⟩ := hbound rec h
            exact ⟨h1, Nat.lt_succ_of_lt h2⟩
        · rw [hsess, List.map_cons]
          refine List.chain'_cons'.mpr ⟨?_, hchain⟩
          intro y hy
          show y < (insertedRecord c cfg r t).id
          cases hold : c.sessions s with
          | nil => rw [hold] at hy; cases hy
          | cons o rest =>
              rw [hold] at hy
              simp only [List.map_cons, List.head?_cons, Option.mem_def,
                Option.some.injEq] at hy
              have : o ∈ c.sessions s := by
                rw [hold]
                exact List.mem_cons_self _ _
              rw [← hy]
              exact (hbound o this).2
        · rw [hsess]
          simp [isPutTo, hs2]
      · have hsess : (execOp cfg c (CacheOp.putOp s2 r t)).sessions s
            = c.sessions s := by
          rw [execOp]
          exact put_sessions_other c cfg s2 s r t (fun h => hs2 h.symm)
        have hnext : (execOp cfg c (CacheOp.putOp s2 r t)).nextId = c.nextId + 1 := rfl
        refine ⟨⟨?_, ?_⟩, ?_⟩
        · intro rec hrec
          rw [hsess] at hrec
          rw [hnext]
          obtain ⟨h1, h2⟩ := hbound rec hrec
          exact ⟨h1, Nat.lt_succ_of_lt h2⟩
        · rw [hsess]
          exact hchain
        · rw [hsess]
          simp [isPutTo, hs2]
  | listOp s2 t =>
      simp only [opFresh, decide_eq_true_eq] at hop
      have hsess : (execOp cfg c (CacheOp.listOp s2 t)).sessions s
          = c.sessions s := by
        rw [execOp, list_fst_sessions]
        by_cases hs2 : s = s2
        · rw [if_pos hs2, ← hs2, purge]
          refine List.filter_eq_self.mpr ?_
          intro a ha
          refine decide_eq_true ?_
          have := (hbound a ha).1
          omega
        · rw [if_neg hs2]
      have hnext : (execOp cfg c (CacheOp.listOp s2 t)).nextId = c.nextId := rfl
      refine ⟨⟨?_, ?_⟩, ?_⟩
      · intro rec hrec
        rw [hsess] at hrec
        rw [hnext]
        exact hbound rec hrec
      · rw [hsess]
        exact hchain
      · rw [hsess]
        simp [isPutTo]

theorem sessInv_execOps (cfg : CacheConfig) (s : String) (q : Nat)
    (ops : List CacheOp) (c : HistoryCache)
    (hinv : SessInv s q c) (hfresh : ∀ op ∈ ops, opFresh cfg s q op = true) :
    SessInv s q (execOps cfg c ops) ∧
    ((execOps cfg c ops).sessions s).length
      = (c.sessions s).length + ops.countP (isPutTo s) := by
  induction ops generalizing c with
  | nil =>
      refine ⟨hinv, ?_⟩
      simp [execOps]
  | cons op ops ih =>
      have h1 := sessInv_step cfg s q c op hinv (hfresh op (List.mem_cons_self _ _))
      have h2 := ih (execOp cfg c op) h1.1
        (fun o ho => hfresh o (List.mem_cons_of_mem _ ho))
      refine ⟨h2.1, ?_⟩
      rw [execOps, h2.2, h1.2, List.countP_cons]
      cases hput : isPutTo s op <;> simp [hput] <;> omega

/-- C9: for any interleaving of atomic `put` and `list` operations
(concurrent executions are serialized by the spec's mutual-exclusion
discipline), every `put` to the observed session produces a distinct visible
record in a subsequent `list` — the listing has exactly one record per put,
with pairwise distinct ids.  This covers every N, in particular N up to
100. -/
theorem C9_no_lost_updates (cfg : CacheConfig) (c : HistoryCache) (s : String)
    (ops : List CacheOp) (q : Nat)
    (hempty : c.sessions s = [])
    (hfresh : ∀ op ∈ ops, opFresh cfg s q op = true) :
    (((execOps cfg c ops).list s q).2).length = ops.countP (isPutTo s) ∧
    ((((execOps cfg c ops).list s q).2).map StoredRecord.id).Nodup := by
  have hinv0 : SessInv s q c := by
    refine ⟨?_, ?_⟩
    · intro rec hrec
      rw [hempty] at hrec
      cases hrec
    · rw [hempty]
      exact List.chain'_nil
  obtain ⟨⟨hbound, hchain⟩, hlen⟩ := sessInv_execOps cfg s q ops c hinv0 hfresh
  have hfilter : purge q ((execOps cfg c ops).sessions s)
      = (execOps cfg c ops).sessions s := by
    rw [purge]
    refine List.filter_eq_self.mpr ?_
    intro a ha
    exact decide_eq_true (hbound a ha).1
  refine ⟨?_, ?_⟩
  · rw [list_snd, hfilter, hlen, hempty]
    simp
  · rw [list_snd, hfilter]
    have hpair := List.chain'_iff_pairwise.mp hchain
    exact hpair.imp (fun h => ne_of_gt h)

/-- A concrete interleaving: three puts to session `"abc"`, a purge-carrying
read in between, and a read of another session. -/
def sampleOps : List CacheOp :=
  [CacheOp.putOp "abc" sampleInterviewBody 1,
   CacheOp.putOp "abc" sampleInterviewBody 2,
   CacheOp.listOp "abc" 3,
   CacheOp.putOp "abc" sampleInterviewBody 4,
   CacheOp.listOp "other" 5]

/-- Witness for C9 on the concrete interleaving: the final listing holds
exactly one record per put. -/
theorem C9_no_lost_updates_witness :
    (emptyCache.sessions "abc" = []) ∧
      (((execOps CacheConfig.default emptyCache sampleOps).list "abc" 10).2).length
        = sampleOps.countP (isPutTo "abc") :=
  ⟨rfl,
    (C9_no_lost_updates CacheConfig.default emptyCache "abc" sampleOps 10 rfl
      (by decide)).1⟩

/-- `InterviewResponse` from frontend/src/types.ts. -/
structure InterviewResponse where
  transcript : String
  quick_answer : String
  full_answer : String
deriving DecidableEq, Repr

/-- `ImageAnswerResponse` from frontend/src/types.ts. -/
structure ImageAnswerResponse where
  answer : String
  selected_option : Option String
deriving DecidableEq, Repr

/-- The client environment `ensureSessionId` reads (frontend/src/api.ts):
the `VITE_SESSION_ID` override, whether a `window` object exists, whether
touching `window.localStorage` succeeds (the try/catch), the storage
contents, and the identifier the browser primitives would mint on this call
(`crypto.randomUUID()` when available, else the `Math.random` fallback). -/
structure ClientEnv where
  sessionOverride : Option String
  hasWindow : Bool
  storageAvailable : Bool
  storage : String → Option String
  mintedId : String

/-- The localStorage key used by the client (frontend/src/api.ts). -/
def SESSION_KEY : String := "interview-assistant-session"

/-- JavaScript truthiness of a nullable string: `undefined`/`null` and the
empty string are falsy. -/
def jsTruthy : Option String → Bool
  | none => false
  | some s => !(decide (s = ""))

/-- The minting branch of `ensureSessionId`: generate an identifier and
persist it under `SESSION_KEY` via `storage.setItem`. -/
def mintStep (env : ClientEnv) : String × ClientEnv :=
  (env.mintedId,
   { env with
      storage := fun k => if k = SESSION_KEY then some env.mintedId else env.storage k })

/-- `ensureSessionId` (frontend/src/api.ts): return the `VITE_SESSION_ID`
override when truthy; return the constant `"server"` when there is no
`window` or accessing localStorage throws; otherwise reuse the stored
identifier when truthy, else mint one, persist it, and return it. -/
def ensureSessionId (env : ClientEnv) : String × ClientEnv :=
  if jsTruthy env.sessionOverride then (env.sessionOverride.getD "", env)
  else if !env.hasWindow then ("server", env)
  else if !env.storageAvailable then ("server", env)
  else
    match env.storage SESSION_KEY with
    | some s => if s = "" then mintStep env else (s, env)
    | none => mintStep env

/-- An outgoing API request: its path and the `X-Session-Id` header. -/
structure ApiRequest where
  path : String
  xSessionId : String
deriving DecidableEq, Repr

/-- The request `submitInterview` sends (frontend/src/api.ts): POST
/api/interview with the `X-Session-Id` header set to `ensureSessionId()`. -/
def submitInterviewRequest (env : ClientEnv) : ApiRequest × ClientEnv :=
  let p := ensureSessionId env
  ({ path := "/api/interview", xSessionId := p.1 }, p.2)

/-- The request `submitImageQuestion` sends (frontend/src/api.ts): POST
/api/image-question with the `X-Session-Id` header. -/
def submitImageQuestionRequest (env : ClientEnv) : ApiRequest × ClientEnv :=
  let p := ensureSessionId env
  ({ path := "/api/image-question", xSessionId := p.1 }, p.2)

/-- The request `fetchHistory` sends (frontend/src/api.ts): GET /api/history
with the `X-Session-Id` header. -/
def fetchHistoryRequest (env : ClientEnv) : ApiRequest × ClientEnv :=
  let p := ensureSessionId env
  ({ path := "/api/history", xSessionId := p.1 }, p.2)

/-- C7: the client mints the session identifier once, persists it in
localStorage under `"interview-assistant-session"`, sends it as the
`X-Session-Id` header on every write request and every read request, and
falls back to the constant `"server"` partition key when client-side storage
is unavailable. -/
theorem C7_session_header_on_every_request (env : ClientEnv) :
    ((submitInterviewRequest env).1.xSessionId = (ensureSessionId env).1) ∧
    ((submitImageQuestionRequest env).1.xSessionId = (ensureSessionId env).1) ∧
    ((fetchHistoryRequest env).1.xSessionId = (ensureSessionId env).1) ∧
    (SESSION_KEY = "interview-assistant-session") ∧
    (jsTruthy env.sessionOverride = false → env.hasWindow = true →
      env.storageAvailable = true → env.storage SESSION_KEY = none →
      (ensureSessionId env).1 = env.mintedId ∧
        ((ensureSessionId env).2).storage SESSION_KEY = some env.mintedId) ∧
    (jsTruthy env.sessionOverride = false → env.hasWindow = true →
      env.storageAvailable = false → (ensureSessionId env).1 = "server") := by
  refine ⟨rfl, rfl, rfl, rfl, ?_, ?_⟩
  · intro hov hw hst hstore
    rw [ensureSessionId, hov, hw, hst, hstore]
    simp [mintStep]
  · intro hov hw hst
    rw [ensureSessionId, hov, hw, hst]
    simp

/-- A concrete client environment: no override, a window with empty working
localStorage, a freshly minted UUID. -/
def freshClientEnv : ClientEnv :=
  { sessionOverride := none, hasWindow := true, storageAvailable := true,
    storage := fun _ => none, mintedId := "3f1d-uuid-4e2a" }

/-- Witness for C7: in the fresh environment the minted identifier is
returned, persisted under the session key, and carried on the history
request header. -/
theorem C7_session_header_on_every_request_witness :
    ((ensureSessionId freshClientEnv).1 = "3f1d-uuid-4e2a" ∧
      ((ensureSessionId freshClientEnv).2).storage SESSION_KEY
        = some "3f1d-uuid-4e2a") ∧
    (fetchHistoryRequest freshClientEnv).1.xSessionId
      = (ensureSessionId freshClientEnv).1 :=
  ⟨(C7_session_header_on_every_request freshClientEnv).2.2.2.2.1 rfl rfl rfl rfl,
   (C7_session_header_on_every_request freshClientEnv).2.2.1⟩

/-- C10: `ensureSessionId` is total and stable — a truthy `VITE_SESSION_ID`
override is returned exactly; otherwise (given the browser minting
primitives return a non-empty identifier) the result is a non-empty string,
and a second call in the same context returns the same value as the first:
the first minted identifier is reused, never re-minted, whatever identifier
the second call would have minted. -/
theorem C10_ensureSessionId_total_stable (env : ClientEnv) (m2 : String)
    (hm : env.mintedId ≠ "") :
    (∀ o : String, env.sessionOverride = some o → o ≠ "" →
      (ensureSessionId env).1 = o) ∧
    ((ensureSessionId env).1 ≠ "") ∧
    ((ensureSessionId { (ensureSessionId env).2 with mintedId := m2 }).1
      = (ensureSessionId env).1) := by
  obtain ⟨ov, hw, sa, st, mid⟩ := env
  refine ⟨?_, ?_, ?_⟩
  · intro o ho hne
    subst ho
    simp [ensureSessionId, jsTruthy, hne]
  · by_cases hov : jsTruthy ov
    · cases ov with
      | none => simp [jsTruthy] at hov
      | some o =>
          have hne : o ≠ "" := by simpa [jsTruthy] using hov
          simp [ensureSessionId, hov, hne]
    · cases hw with
      | false => simp [ensureSessionId, hov]
      | true =>
          cases sa with
          | false => simp [ensureSessionId, hov]
          | true =>
              cases hstore : st SESSION_KEY with
              | none => simp [ensureSessionId, hov, hstore, mintStep, hm]
              | some s =>
                  by_cases hse : s = ""
                  · simp [ensureSessionId, hov, hstore, hse, mintStep, hm]
                  · simp [ensureSessionId, hov, hstore, hse]
  · by_cases hov : jsTruthy ov
    · simp [ensureSessionId, hov]
    · cases hw with
      | false => simp [ensureSessionId, hov]
      | true =>
          cases sa with
          | false => simp [ensureSessionId, hov]
          | true =>
              cases hstore : st SESSION_KEY with
              | none => simp [ensureSessionId, hov, hstore, mintStep, hm]
              | some s =>
                  by_cases hse : s = ""
                  · simp [ensureSessionId, hov, hstore, hse, mintStep, hm]
                  · simp [ensureSessionId, hov, hstore, hse]

/-- Witness for C10 in the fresh environment: the minted identifier is
non-empty and a second call (even one that would mint a different value)
returns the same identifier. -/
theorem C10_ensureSessionId_total_stable_witness :
    (freshClientEnv.mintedId ≠ "") ∧
    ((ensureSessionId freshClientEnv).1 ≠ "") ∧
    ((ensureSessionId
        { (ensureSessionId freshClientEnv).2 with mintedId := "other-mint" }).1
      = (ensureSessionId freshClientEnv).1) :=
  ⟨by decide,
   (C10_ensureSessionId_total_stable freshClientEnv "other-mint" (by decide)).2.1,
   (C10_ensureSessionId_total_stable freshClientEnv "other-mint" (by decide)).2.2⟩

/-- The App component's state relevant to submissions and the history panel
(the `useState` hooks of the App component). -/
structure AppState where
  status : String
  error : Option String
  lastResponse : Option InterviewResponse
  isSubmitting : Bool
  imageAnswer : Option ImageAnswerResponse
  imageLoading : Bool
  imageError : Option String
  historyEntries : List StoredRecord
  historyLoading : Bool
  historyError : Option String
deriving Repr

/-- `refreshHistory` from the App component: set the loading flag, clear the
history error, then either store the fetched entries or catch the rejection
and store its message as the history error banner; finally clear the loading
flag.  It is a total state transformer — it never rethrows. -/
def refreshHistory (fetchRes : Except String (List StoredRecord))
    (st : AppState) : AppState :=
  let st1 := { st with historyLoading := true, historyError := none }
  let st2 :=
    match fetchRes with
    | Except.ok entries => { st1 with historyEntries := entries }
    | Except.error e => { st1 with historyError := some e }
  { st2 with historyLoading := false }

/-- `handleSegment` from the App component: mark the upload in progress,
clear the error; on a successful interview submission store the response,
set the status to Complete and refresh the history; on a failed submission
store the error and set the status to Error; finally clear the submitting
flag. -/
def handleSegment (submitRes : Except String InterviewResponse)
    (fetchRes : Except String (List StoredRecord)) (st : AppState) : AppState :=
  let st1 := { st with status := "Uploading audio…", error := none,
                       isSubmitting := true }
  let st2 :=
    match submitRes with
    | Except.ok response =>
        refreshHistory fetchRes
          { st1 with lastResponse := some response, status := "Complete" }
    | Except.error e => { st1 with error := some e, status := "Error" }
  { st2 with isSubmitting := false }

/-- `handleImageUpload` from the App component: mark the image as loading,
clear the image error and previous answer; on success store the vision
answer and refresh the history; on failure store the image error; finally
clear the loading flag. -/
def handleImageUpload (submitRes : Except String ImageAnswerResponse)
    (fetchRes : Except String (List StoredRecord)) (st : AppState) : AppState :=
  let st1 := { st with imageLoading := true, imageError := none,
                       imageAnswer := none }
  let st2 :=
    match submitRes with
    | Except.ok response =>
        refreshHistory fetchRes { st1 with imageAnswer := some response }
    | Except.error e => { st1 with imageError := some e }
  { st2 with imageLoading := false }

/-- C6: a failing history fetch never fails the primary answer-generation
flow.  `refreshHistory` catches every fetch rejection, stores it only in the
non-fatal history error banner and touches neither the submission error nor
the status; hence after a successful interview or image submission a
rejected history fetch leaves the submission in its success state
(`Complete`, no error, the response stored) — and both handlers are total
state transformers, so nothing rejects. -/
theorem C6_history_failure_nonfatal (st : AppState) (r : InterviewResponse)
    (ir : ImageAnswerResponse) (e : String)
    (fetchRes : Except String (List StoredRecord)) :
    ((refreshHistory fetchRes st).error = st.error) ∧
    ((refreshHistory fetchRes st).status = st.status) ∧
    ((refreshHistory fetchRes st).imageError = st.imageError) ∧
    ((refreshHistory (Except.error e) st).historyError = some e) ∧
    ((refreshHistory (Except.error e) st).historyLoading = false) ∧
    ((handleSegment (Except.ok r) fetchRes st).status = "Complete") ∧
    ((handleSegment (Except.ok r) fetchRes st).error = none) ∧
    ((handleSegment (Except.ok r) fetchRes st).lastResponse = some r) ∧
    ((handleSegment (Except.ok r) (Except.error e) st).historyError = some e) ∧
    ((handleImageUpload (Except.ok ir) fetchRes st).imageError = none) ∧
    ((handleImageUpload (Except.ok ir) fetchRes st).imageAnswer = some ir) ∧
    ((handleImageUpload (Except.ok ir) (Except.error e) st).historyError
      = some e) := by
  cases fetchRes <;>
    simp [refreshHistory, handleSegment, handleImageUpload]

end HackInterview
